import Mathlib

/-!
Shallow embedding of `point_cloud_converter.py` (class `Logic`) and the
older variant `point_cloud_transformer.py`.  The program is Python 2:
files are opened in binary mode, lines are the chunks ending in a line
feed, and `round` rounds half away from zero.  Strings are modelled as
`List Char`, Python floats as exact rationals `ℚ`, a raised exception as
`none` / an error flag, and the filesystem as an association list from
paths to file contents.
-/

set_option autoImplicit false

namespace PointCloudConverter

/-- A row of the cleaned cloud: the comma-separated fields of one data line. -/
abbrev Row : Type := List (List Char)

/-- The cleaned cloud: one `Row` per non-comment line of the input file. -/
abbrev Cloud : Type := List Row

/-- Python 2 `s.replace('\r\n', '')`: scan left to right and drop every
non-overlapping occurrence of the two-character sequence CR LF
(`Logic.cleaned_cloud`, line 275 of `point_cloud_converter.py`). -/
def replaceCRLF : List Char → List Char
  | '\r' :: '\n' :: rest => replaceCRLF rest
  | c :: rest => c :: replaceCRLF rest
  | [] => []

/-- Iterating a Python 2 binary-mode file handle: the content is cut after
every line feed, each chunk keeps its terminator, and a final chunk without
a terminator is still yielded.  An empty file yields no lines. -/
def splitLinesKeep : List Char → List (List Char)
  | [] => []
  | c :: cs =>
    if c = '\n' then ['\n'] :: splitLinesKeep cs
    else
      match splitLinesKeep cs with
      | [] => [[c]]
      | l :: ls => (c :: l) :: ls

/-- The test `line[0] == '#'` of `Logic.cleaned_cloud` (line 268). -/
def isComment (l : List Char) : Bool :=
  l.head? == some '#'

/-- Outcome of the loop body of `Logic.cleaned_cloud` on one line. -/
inductive LineResult where
  | comment : LineResult
  | row : Row → LineResult
  | err : LineResult
  deriving DecidableEq

/-- One iteration of the loop of `Logic.cleaned_cloud` (lines 267-276): a
line starting with `#` is skipped; otherwise the line is split on commas,
`row[2]` has every CR LF removed, and the whole row is kept.  Accessing
`row[2]` raises `IndexError` when the split yields fewer than 3 fields
(`err`); an empty line would raise on `line[0]` but never occurs. -/
def processLine : List Char → LineResult
  | [] => .err
  | c :: cs =>
    if c = '#' then .comment
    else
      match List.splitOn ',' (c :: cs) with
      | f0 :: f1 :: f2 :: rest => .row (f0 :: f1 :: replaceCRLF f2 :: rest)
      | _ => .err

/-- The loop of `Logic.cleaned_cloud` over all lines; `none` models the
`IndexError` escaping the method. -/
def cleanLines : List (List Char) → Option Cloud
  | [] => some []
  | l :: ls =>
    match processLine l with
    | .comment => cleanLines ls
    | .err => none
    | .row r => (cleanLines ls).map (fun rest => r :: rest)

/-- `Logic.cleaned_cloud` on the contents of the input file (lines 251-277
of `point_cloud_converter.py`; identical to `Logic._clean_cloud` of
`point_cloud_transformer.py` up to the caller-supplied accumulator). -/
def cleaned_cloud (content : List Char) : Option Cloud :=
  cleanLines (splitLinesKeep content)

/-- Number of non-comment lines of the file: the `N` of the specification. -/
def dataLineCount (content : List Char) : ℕ :=
  ((splitLinesKeep content).filter (fun l => !isComment l)).length

/-- Python 2 `round`, rounding half away from zero, on an exact rational. -/
def pyRound (q : ℚ) : ℤ :=
  if 0 ≤ q then ⌊q + 1 / 2⌋ else -⌊-q + 1 / 2⌋

/-- Model of the library call `DataFrame.sample(frac=frac, random_state=seed)`
used by `Logic.point_data` (line 232): pandas computes
`n = int(round(frac * len(df)))` with the Python 2 `round` and asks numpy for
`n` distinct row positions, which raises `ValueError` when `n` is negative or
exceeds the population; otherwise exactly `n` rows are drawn without
replacement.  Which rows the seeded generator picks is irrelevant to every
property below, so the draw is realised as the first `n` rows of the
seed-rotated row list, a permutation of the original rows. -/
def pandasSample (rows : Cloud) (frac : ℚ) (seed : ℕ) : Option Cloud :=
  let k : ℤ := pyRound (frac * rows.length)
  if 0 ≤ k ∧ k ≤ (rows.length : ℤ) then some ((rows.rotate seed).take k.toNat)
  else none

/-- `Logic.point_data` (lines 213-233): subsample and return
`(len(df.index), df)`; the seed is `random.randint(0, 10)`, kept here as an
explicit parameter. -/
def point_data (data : Cloud) (frac : ℚ) (seed : ℕ) : Option (ℕ × Cloud) :=
  (pandasSample data frac seed).map (fun df => (df.length, df))

/-- Contents of a file: raw text for inputs, a bare cell grid for the
spreadsheet written by `DataFrame.to_excel(..., header=False, index=False)`
(no header row, no index column). -/
inductive FileData where
  | text : List Char → FileData
  | sheet : Cloud → FileData
  deriving DecidableEq

/-- The filesystem: an association list from paths to file contents. -/
abbrev FS : Type := List (List Char × FileData)

/-- Look a path up in the filesystem; `none` models `IOError` on `open`. -/
def fsRead (fs : FS) (p : List Char) : Option FileData :=
  (fs.find? (fun e => e.1 = p)).map Prod.snd

/-- Overwrite (or create) the file at `p`. -/
def fsWrite (fs : FS) (p : List Char) (d : FileData) : FS :=
  (p, d) :: fs.filter (fun e => e.1 ≠ p)

/-- `Logic.cleaned_cloud` including the `open` call: reading a missing path
raises before any line is processed. -/
def cleanedCloudFS (fs : FS) (p : List Char) : Option Cloud :=
  match fsRead fs p with
  | some (.text content) => cleaned_cloud content
  | _ => none

/-- `Logic.preview` (lines 194-211): parse the file, subsample, and return
only the row count; `none` models a raised exception. -/
def preview (fs : FS) (p : List Char) (frac : ℚ) (seed : ℕ) : Option ℕ :=
  (cleanedCloudFS fs p).bind (fun pts => (point_data pts frac seed).map Prod.fst)

/-- Index of the last occurrence of `c`, CPython `str.rfind` but with
`none` for the `-1` of a missing character. -/
def rfindIdx (c : Char) : List Char → Option ℕ
  | [] => none
  | x :: xs =>
    match rfindIdx c xs with
    | some i => some (i + 1)
    | none => if x = c then some 0 else none

/-- CPython `posixpath.split`: cut after the last slash, then strip the
trailing slashes of the head unless the head is all slashes. -/
def osPathSplit (p : List Char) : List Char × List Char :=
  let tail := (p.reverse.takeWhile (fun c => c ≠ '/')).reverse
  let head := p.take (p.length - tail.length)
  if head ≠ [] ∧ head.any (fun c => c ≠ '/')
  then ((head.reverse.dropWhile (fun c => c = '/')).reverse, tail)
  else (head, tail)

/-- CPython `posixpath.splitext`: split at the last dot that follows the
last slash, unless every character between them is a dot (a leading-dot
filename has no extension). -/
def splitext (p : List Char) : List Char × List Char :=
  let sepIdx : ℤ := match rfindIdx '/' p with | some i => (i : ℤ) | none => -1
  match rfindIdx '.' p with
  | some d =>
    if sepIdx < (d : ℤ) ∧
        ((p.drop (sepIdx + 1).toNat).take (d - (sepIdx + 1).toNat)).any
          (fun c => c ≠ '.')
    then (p.take d, p.drop d)
    else (p, [])
  | none => (p, [])

/-- CPython `posixpath.join` on two components. -/
def osPathJoin (a b : List Char) : List Char :=
  if b.head? = some '/' then b
  else if a = [] ∨ a.getLast? = some '/' then a ++ b
  else a ++ '/' :: b

/-- `Logic._xlsx_path` (lines 176-192): replace the extension of the input
path by `.xlsx` (POSIX path conventions). -/
def xlsx_path (filepath : List Char) : List Char :=
  let st := osPathSplit filepath
  osPathJoin st.1 ((splitext st.2).1 ++ ('.' :: 'x' :: 'l' :: 's' :: 'x' :: []))

/-- `Logic._create_xlsx` (lines 235-249): subsample the parsed data and
write the bare grid (`header=False`, `index=False`) at the `.xlsx` sibling
path; the result is the single write performed, `none` a raised exception. -/
def create_xlsx (filepath : List Char) (data : Cloud) (frac : ℚ) (seed : ℕ) :
    Option (List Char × Cloud) :=
  (point_data data frac seed).map (fun pr => (xlsx_path filepath, pr.2))

/-- `Logic.transform` (lines 279-291) acting on the modelled filesystem:
parse, subsample, write.  The second component reports whether an exception
escaped; every exception is raised before `to_excel` runs, so an erroring
call returns the filesystem unchanged. -/
def transform (fs : FS) (p : List Char) (frac : ℚ) (seed : ℕ) : FS × Bool :=
  match cleanedCloudFS fs p with
  | none => (fs, true)
  | some data =>
    match create_xlsx p data frac seed with
    | none => (fs, true)
    | some pr => (fsWrite fs pr.1 (.sheet pr.2), false)

/-- Value of a run of decimal digits, `none` on any non-digit. -/
def digitsVal : List Char → ℕ → Option ℕ
  | [], acc => some acc
  | c :: cs, acc =>
    if c.isDigit then digitsVal cs (10 * acc + (c.toNat - 48)) else none

/-- Unsigned part of the Python `float()` literal syntax restricted to plain
decimals `D* [. D*]` with at least one digit; the exact value is kept as a
rational. -/
def parseUnsigned (s : List Char) : Option ℚ :=
  match s.splitOn '.' with
  | [intPart] =>
    if intPart = [] then none
    else (digitsVal intPart 0).map (fun v => (v : ℚ))
  | [intPart, fracPart] =>
    if intPart = [] ∧ fracPart = [] then none
    else
      match digitsVal intPart 0, digitsVal fracPart 0 with
      | some i, some fr => some ((i : ℚ) + (fr : ℚ) / (10 ^ fracPart.length))
      | _, _ => none
  | _ => none

/-- Model of the builtin `float()` on plain signed decimal literals
(exponents, whitespace, `inf`/`nan` are omitted: the development only
evaluates it on plain literals, and the general validator theorems are
stated for an arbitrary parser). -/
def pyFloat (s : List Char) : Option ℚ :=
  match s with
  | '-' :: rest => (parseUnsigned rest).map (fun q => -q)
  | '+' :: rest => parseUnsigned rest
  | _ => parseUnsigned s

/-- `Logic.validate_sub` (lines 153-174; `Logic.validate_subsample` of
`point_cloud_transformer.py` is identical): parse the string with `float`,
return `None` when the parse fails, the value when `0 < x <= 1`, and `None`
(the implicit Python return) otherwise.  The float parser is a parameter so
that the theorems about the range check hold for any numeric parse. -/
def validate_sub (parse : List Char → Option ℚ) (x : List Char) : Option ℚ :=
  match parse x with
  | none => none
  | some v => if 0 < v ∧ v ≤ 1 then some v else none

/-- Stated from the specification, for comparison with `replaceCRLF`:
remove the single trailing CR LF pair of a field, nothing else. -/
def stripTrailingCRLF : List Char → List Char
  | [] => []
  | [a, b] => if a = '\r' ∧ b = '\n' then [] else [a, b]
  | c :: rest => c :: stripTrailingCRLF rest

/-! Helper lemmas about the embedded operations. -/

lemma processLine_comment (l : List Char) (h : isComment l = true) :
    processLine l = .comment := by
  cases l with
  | nil => simp [isComment] at h
  | cons c cs =>
    simp [isComment] at h
    simp [processLine, h]

lemma comment_of_processLine (l : List Char) (h : processLine l = .comment) :
    isComment l = true := by
  cases l with
  | nil => simp [processLine] at h
  | cons c cs =>
    by_cases hc : c = '#'
    · simp [isComment, hc]
    · rcases hsp : List.splitOn ',' (c :: cs) with _ | ⟨a, _ | ⟨b, _ | ⟨d, t⟩⟩⟩ <;>
        simp [processLine, hc, hsp] at h

lemma processLine_row (l f0 f1 f2 : List Char) (rest : List (List Char))
    (hc : isComment l = false)
    (hs : List.splitOn ',' l = f0 :: f1 :: f2 :: rest) :
    processLine l = .row (f0 :: f1 :: replaceCRLF f2 :: rest) := by
  cases l with
  | nil => simp [List.splitOn_nil] at hs
  | cons c cs =>
    simp [isComment] at hc
    simp [processLine, hc, hs]

lemma processLine_err (l : List Char) (hc : isComment l = false)
    (hlen : (List.splitOn ',' l).length < 3) :
    processLine l = .err := by
  cases l with
  | nil => rfl
  | cons c cs =>
    simp [isComment] at hc
    rcases hsp : List.splitOn ',' (c :: cs) with _ | ⟨a, _ | ⟨b, _ | ⟨d, t⟩⟩⟩
    · simp [processLine, hc, hsp]
    · simp [processLine, hc, hsp]
    · simp [processLine, hc, hsp]
    · rw [hsp] at hlen
      simp at hlen
      omega

lemma processLine_row_length (l : List Char) (r : Row)
    (h : processLine l = .row r) : 3 ≤ r.length := by
  cases l with
  | nil => simp [processLine] at h
  | cons c cs =>
    by_cases hc : c = '#'
    · simp [processLine, hc] at h
    · rcases hsp : List.splitOn ',' (c :: cs) with _ | ⟨a, _ | ⟨b, _ | ⟨d, t⟩⟩⟩ <;>
        simp [processLine, hc, hsp] at h
      subst h
      simp

lemma data_of_processLine_row (l : List Char) (r : Row)
    (h : processLine l = .row r) : isComment l = false := by
  cases l with
  | nil => simp [isComment]
  | cons c cs =>
    by_cases hc : c = '#'
    · simp [processLine, hc] at h
    · simp [isComment, hc]

lemma cleanLines_length (ls : List (List Char)) (rows : Cloud)
    (h : cleanLines ls = some rows) :
    rows.length = (ls.filter (fun l => !isComment l)).length := by
  induction ls generalizing rows with
  | nil =>
    simp [cleanLines] at h
    subst h
    simp
  | cons l ls ih =>
    rw [cleanLines] at h
    rcases hp : processLine l with _ | r | _ <;> rw [hp] at h
    · have hcl := comment_of_processLine l hp
      simp [List.filter_cons, hcl, ih rows h]
    · rcases Option.map_eq_some'.mp h with ⟨rest, hrest, hrows⟩
      have hcl := data_of_processLine_row l r hp
      subst hrows
      simp [List.filter_cons, hcl, ih rest hrest]
    · exact absurd h (by simp)

lemma cleanLines_rows_ge3 (ls : List (List Char)) (rows : Cloud)
    (h : cleanLines ls = some rows) :
    ∀ r ∈ rows, 3 ≤ r.length := by
  induction ls generalizing rows with
  | nil =>
    simp [cleanLines] at h
    subst h
    simp
  | cons l ls ih =>
    rw [cleanLines] at h
    rcases hp : processLine l with _ | r | _ <;> rw [hp] at h
    · exact ih rows h
    · rcases Option.map_eq_some'.mp h with ⟨rest, hrest, hrows⟩
      subst hrows
      intro x hx
      rcases List.mem_cons.mp hx with hx | hx
      · subst hx
        exact processLine_row_length l x hp
      · exact ih rest hrest x hx
    · exact absurd h (by simp)

lemma cleanLines_wf (ls : List (List Char))
    (h : ∀ l ∈ ls, isComment l = false → (List.splitOn ',' l).length = 3) :
    ∃ rows, cleanLines ls = some rows ∧ ∀ r ∈ rows, r.length = 3 := by
  induction ls with
  | nil => exact ⟨[], rfl, by simp⟩
  | cons l ls ih =>
    obtain ⟨rows, hrows, hlen⟩ := ih (fun x hx hc => h x (List.mem_cons_of_mem _ hx) hc)
    by_cases hcl : isComment l
    · exact ⟨rows, by simp [cleanLines, processLine_comment l hcl, hrows], hlen⟩
    · have h3 := h l (List.mem_cons_self _ _) (by simpa using hcl)
      obtain ⟨f0, f1, f2, hsp⟩ := List.length_eq_three.mp h3
      refine ⟨[f0, f1, replaceCRLF f2] :: rows, ?_, ?_⟩
      · simp [cleanLines,
          processLine_row l f0 f1 f2 [] (by simpa using hcl) hsp, hrows]
      · intro r hr
        rcases List.mem_cons.mp hr with hr | hr
        · subst hr; rfl
        · exact hlen r hr

lemma stripTrailingCRLF_cons (c : Char) (l : List Char)
    (h : ¬(c = '\r' ∧ l = ['\n'])) :
    stripTrailingCRLF (c :: l) = c :: stripTrailingCRLF l := by
  rcases l with _ | ⟨d, t⟩
  · rfl
  · rcases t with _ | ⟨e, u⟩
    · have hne : ¬(c = '\r' ∧ d = '\n') := by
        rintro ⟨rfl, rfl⟩
        exact h ⟨rfl, rfl⟩
      simp [stripTrailingCRLF, hne]
    · rfl

lemma replaceCRLF_cons (c : Char) (l : List Char)
    (h : ∀ (rest : List Char), c = '\r' → l = '\n' :: rest → False) :
    replaceCRLF (c :: l) = c :: replaceCRLF l := by
  rw [replaceCRLF]
  exact h

lemma replaceCRLF_eq_strip (l : List Char) (h : '\n' ∉ l.dropLast) :
    replaceCRLF l = stripTrailingCRLF l := by
  induction l using replaceCRLF.induct with
  | case1 rest ih =>
    rcases rest with _ | ⟨c, cs⟩
    · rfl
    · exact absurd (by simp) h
  | case2 c rest hne ih =>
    rcases rest with _ | ⟨d, t⟩
    · rw [replaceCRLF_cons c [] hne]
      rfl
    · have hdl : (c :: d :: t).dropLast = c :: (d :: t).dropLast := by
        simp [List.dropLast]
      rw [hdl] at h
      have ht : '\n' ∉ (d :: t).dropLast := fun hm => h (by simp [hm])
      have hcr : ¬(c = '\r' ∧ d :: t = ['\n']) := by
        rintro ⟨rfl, ht2⟩
        exact hne [] rfl ht2
      rw [replaceCRLF_cons c (d :: t) hne,
        stripTrailingCRLF_cons c (d :: t) hcr, ih ht]
  | case3 => rfl

lemma replaceCRLF_no_cr (l : List Char) (h : '\r' ∉ l) : replaceCRLF l = l := by
  induction l using replaceCRLF.induct with
  | case1 rest ih => exact absurd (by simp) h
  | case2 c rest hne ih =>
    rw [replaceCRLF_cons c rest hne, ih (fun hm => h (List.mem_cons_of_mem _ hm))]
  | case3 => rfl

lemma pyRound_nonneg {q : ℚ} (h : 0 ≤ q) : 0 ≤ pyRound q := by
  unfold pyRound
  rw [if_pos h]
  exact Int.floor_nonneg.mpr (by linarith)

lemma pyRound_le {q : ℚ} {n : ℕ} (h0 : 0 ≤ q) (h : q ≤ (n : ℚ)) :
    pyRound q ≤ (n : ℤ) := by
  unfold pyRound
  rw [if_pos h0]
  have h3 : ⌊q + 1 / 2⌋ < (n : ℤ) + 1 := Int.floor_lt.mpr (by push_cast; linarith)
  omega

lemma pyRound_natCast (n : ℕ) : pyRound (n : ℚ) = (n : ℤ) := by
  unfold pyRound
  rw [if_pos (by positivity)]
  rw [show ((n : ℚ) + 1 / 2) = ((n : ℤ) : ℚ) + 1 / 2 by push_cast; ring]
  rw [Int.floor_int_add]
  norm_num

lemma pandasSample_valid (rows : Cloud) (frac : ℚ) (seed : ℕ)
    (hf0 : 0 < frac) (hf1 : frac ≤ 1) :
    pandasSample rows frac seed =
      some ((rows.rotate seed).take (pyRound (frac * rows.length)).toNat) ∧
    ((rows.rotate seed).take (pyRound (frac * rows.length)).toNat).length =
      (pyRound (frac * rows.length)).toNat := by
  have hq0 : (0 : ℚ) ≤ frac * rows.length := by positivity
  have hqn : frac * rows.length ≤ (rows.length : ℚ) :=
    mul_le_of_le_one_left (by positivity) hf1
  have hk0 := pyRound_nonneg hq0
  have hkn := pyRound_le hq0 hqn
  constructor
  · unfold pandasSample
    rw [if_pos ⟨hk0, hkn⟩]
  · rw [List.length_take, List.length_rotate]
    omega

lemma pyRound_zero : pyRound 0 = 0 := by
  simpa using pyRound_natCast 0

lemma cleanLines_all_comments (ls : List (List Char))
    (h : ∀ l ∈ ls, isComment l = true) : cleanLines ls = some [] := by
  induction ls with
  | nil => rfl
  | cons l ls ih =>
    simp only [cleanLines, processLine_comment l (h l (List.mem_cons_self _ _))]
    exact ih (fun x hx => h x (List.mem_cons_of_mem _ hx))

lemma preview_eval (fs : FS) (p content : List Char) (f : ℚ) (seed : ℕ)
    (hread : fsRead fs p = some (.text content))
    (hwf : ∀ l ∈ splitLinesKeep content, isComment l = false →
      (List.splitOn ',' l).length = 3)
    (hf0 : 0 < f) (hf1 : f ≤ 1) :
    preview fs p f seed = some (pyRound (f * (dataLineCount content : ℚ))).toNat := by
  obtain ⟨rows, hrows, h3⟩ := cleanLines_wf (splitLinesKeep content) hwf
  have hN : rows.length = dataLineCount content := cleanLines_length _ _ hrows
  obtain ⟨hsamp, hlen⟩ := pandasSample_valid rows f seed hf0 hf1
  have hc : cleanedCloudFS fs p = some rows := by
    simp [cleanedCloudFS, hread, cleaned_cloud, hrows]
  rw [← hN]
  simp [preview, hc, point_data, hsamp, hlen]

/-! The claims. -/

/-- C1: for an input file whose non-comment lines each split into exactly 3
comma-separated fields, with `N` data lines, and a fraction `0 < f ≤ 1`,
`preview` returns exactly `round(f * N)` (Python 2 rounding, half away from
zero); the count does not depend on the randomly drawn sampling seed. -/
theorem preview_count_round (fs : FS) (p content : List Char) (f : ℚ)
    (seed seed2 : ℕ)
    (hread : fsRead fs p = some (.text content))
    (hwf : ∀ l ∈ splitLinesKeep content, isComment l = false →
      (List.splitOn ',' l).length = 3)
    (hf0 : 0 < f) (hf1 : f ≤ 1) :
    preview fs p f seed = some (pyRound (f * (dataLineCount content : ℚ))).toNat ∧
    preview fs p f seed = preview fs p f seed2 :=
  ⟨preview_eval fs p content f seed hread hwf hf0 hf1,
    (preview_eval fs p content f seed hread hwf hf0 hf1).trans
      (preview_eval fs p content f seed2 hread hwf hf0 hf1).symm⟩

theorem preview_count_round_witness :
    preview [("a.txt".toList, FileData.text "1,2,3\n4,5,6\n#c\n7,8,9\n10,11,12\n".toList)]
        ("a.txt".toList) (1 / 2) 3 =
      some (pyRound ((1 / 2) *
        (dataLineCount "1,2,3\n4,5,6\n#c\n7,8,9\n10,11,12\n".toList : ℚ))).toNat ∧
    preview [("a.txt".toList, FileData.text "1,2,3\n4,5,6\n#c\n7,8,9\n10,11,12\n".toList)]
        ("a.txt".toList) (1 / 2) 3 =
      preview [("a.txt".toList, FileData.text "1,2,3\n4,5,6\n#c\n7,8,9\n10,11,12\n".toList)]
        ("a.txt".toList) (1 / 2) 9 :=
  preview_count_round _ _ _ (1 / 2) 3 9 (by decide) (by decide)
    (by norm_num) (by norm_num)

/-- C2: for an input file whose non-comment lines each split into exactly 3
comma-separated fields and a fraction `0 < f ≤ 1`, `transform` writes, at
the input path with its extension replaced by `.xlsx`, the bare grid (no
header row, no index column) of exactly `round(f * N)` sampled rows — all
`N` rows when `f = 1` — each of 3 fields, and the written rows are a
sub-multiset of the parsed rows (drawn without replacement). -/
theorem transform_writes_subsample (fs : FS) (p content : List Char) (f : ℚ)
    (seed : ℕ)
    (hread : fsRead fs p = some (.text content))
    (hwf : ∀ l ∈ splitLinesKeep content, isComment l = false →
      (List.splitOn ',' l).length = 3)
    (hf0 : 0 < f) (hf1 : f ≤ 1) :
    ∃ cloud df,
      cleaned_cloud content = some cloud ∧
      transform fs p f seed = (fsWrite fs (xlsx_path p) (.sheet df), false) ∧
      df.length = (pyRound (f * (dataLineCount content : ℚ))).toNat ∧
      (f = 1 → df.length = dataLineCount content) ∧
      (∀ row ∈ df, row.length = 3) ∧
      df.Subperm cloud := by
  obtain ⟨cloud, hcloud, h3⟩ := cleanLines_wf (splitLinesKeep content) hwf
  have hN : cloud.length = dataLineCount content := cleanLines_length _ _ hcloud
  obtain ⟨hsamp, hlen⟩ := pandasSample_valid cloud f seed hf0 hf1
  have hc : cleanedCloudFS fs p = some cloud := by
    simp [cleanedCloudFS, hread, cleaned_cloud, hcloud]
  have hcx : create_xlsx p cloud f seed =
      some (xlsx_path p, (cloud.rotate seed).take (pyRound (f * cloud.length)).toNat) := by
    simp [create_xlsx, point_data, hsamp]
  refine ⟨cloud, (cloud.rotate seed).take (pyRound (f * cloud.length)).toNat,
    hcloud, ?_, ?_, ?_, ?_, ?_⟩
  · simp [transform, hc, hcx]
  · rw [hlen, hN]
  · intro hf
    subst hf
    rw [hlen, one_mul, pyRound_natCast]
    simp [hN]
  · intro row hrow
    have : row ∈ cloud :=
      (List.mem_rotate).mp (List.mem_of_mem_take hrow)
    exact h3 row this
  · exact ((List.take_sublist _ _).subperm).trans
      (List.rotate_perm cloud seed).subperm

theorem transform_writes_subsample_witness :
    ∃ cloud df,
      cleaned_cloud ("1,2,3\n4,5,6\n".toList) = some cloud ∧
      transform [("a.txt".toList, FileData.text "1,2,3\n4,5,6\n".toList)]
          ("a.txt".toList) 1 0 =
        (fsWrite [("a.txt".toList, FileData.text "1,2,3\n4,5,6\n".toList)]
          (xlsx_path ("a.txt".toList)) (.sheet df), false) ∧
      df.length = (pyRound ((1 : ℚ) *
        (dataLineCount "1,2,3\n4,5,6\n".toList : ℚ))).toNat ∧
      ((1 : ℚ) = 1 → df.length = dataLineCount "1,2,3\n4,5,6\n".toList) ∧
      (∀ row ∈ df, row.length = 3) ∧
      df.Subperm cloud :=
  transform_writes_subsample _ _ _ 1 0 (by decide) (by decide)
    (by norm_num) (by norm_num)

/-- C3 (counterexample): the invariant "every element of the parse result
has exactly 3 fields" is false — a non-comment line with more than two
commas, such as `a,b,c,d`, is kept whole and yields a 4-field row. -/
theorem cleaned_cloud_exactly_three_false :
    ¬(∀ (content : List Char) (rows : Cloud),
        cleaned_cloud content = some rows → ∀ r ∈ rows, r.length = 3) := by
  intro h
  have h4 := h ("a,b,c,d\n".toList) [[['a'], ['b'], ['c'], ['d', '\n']]]
    (by decide) [['a'], ['b'], ['c'], ['d', '\n']] (by simp)
  simp at h4

/-- C3 (amended): every sequence returned by parse has length at most the
number of lines of the source file, and every element has at least 3
fields (exactly 3 when the line had exactly two commas; lines with more
commas keep their extra fields). -/
theorem cleaned_cloud_invariant (content : List Char) (rows : Cloud)
    (h : cleaned_cloud content = some rows) :
    rows.length ≤ (splitLinesKeep content).length ∧ ∀ r ∈ rows, 3 ≤ r.length := by
  constructor
  · calc rows.length
        = ((splitLinesKeep content).filter (fun l => !isComment l)).length :=
          cleanLines_length _ _ h
      _ ≤ (splitLinesKeep content).length := List.length_filter_le _ _
  · exact cleanLines_rows_ge3 _ _ h

theorem cleaned_cloud_invariant_witness :
    ∃ rows, cleaned_cloud ("1,2,3\n#c\n".toList) = some rows ∧
      rows.length ≤ (splitLinesKeep ("1,2,3\n#c\n".toList)).length ∧
      ∀ r ∈ rows, 3 ≤ r.length :=
  ⟨[["1".toList, "2".toList, "3\n".toList]], by decide,
    cleaned_cloud_invariant ("1,2,3\n#c\n".toList)
      [["1".toList, "2".toList, "3\n".toList]] (by decide)⟩

/-- C4 (counterexample): the engine does not reject every fraction outside
`(0, 1]`: with fraction `0` on a readable, parseable one-line file,
`preview` returns `0` and `transform` completes without error (writing an
empty sheet) instead of failing. -/
theorem out_of_range_fraction_not_rejected :
    ¬(∀ (fs : FS) (p content : List Char) (f : ℚ) (seed : ℕ),
        fsRead fs p = some (.text content) →
        (cleaned_cloud content).isSome = true →
        ¬(0 < f ∧ f ≤ 1) →
        preview fs p f seed = none ∧ (transform fs p f seed).2 = true) := by
  intro h
  have h0 := h [(['a'], FileData.text "1,2,3\n".toList)] ['a']
    ("1,2,3\n".toList) 0 7 (by decide) (by decide) (by norm_num)
  have hc : cleanedCloudFS [(['a'], FileData.text "1,2,3\n".toList)] ['a'] =
      some [["1".toList, "2".toList, "3\n".toList]] := by decide
  have hp : preview [(['a'], FileData.text "1,2,3\n".toList)] ['a'] 0 7 =
      some 0 := by
    simp only [preview]
    rw [hc]
    simp [point_data, pandasSample, pyRound_zero]
  rw [h0.1] at hp
  exact Option.noConfusion hp

/-- C4 (amended): on a readable, parseable file with `N` data lines,
`preview` and `transform` raise an error exactly when the sample size
`round(f * N)` is negative or exceeds `N` (so they do fail for large
fractions, e.g. `f = 2` on a nonempty file), but fractions such as `0` with
`0 ≤ round(f * N) ≤ N` are accepted silently rather than rejected; a failed
`transform` leaves the filesystem unchanged. -/
theorem sample_failure_condition (fs : FS) (p content : List Char) (f : ℚ)
    (seed : ℕ)
    (hread : fsRead fs p = some (.text content))
    (hparse : (cleaned_cloud content).isSome = true) :
    (preview fs p f seed = none ↔
      ¬(0 ≤ pyRound (f * (dataLineCount content : ℚ)) ∧
        pyRound (f * (dataLineCount content : ℚ)) ≤ (dataLineCount content : ℤ))) ∧
    ((transform fs p f seed).2 = true ↔
      ¬(0 ≤ pyRound (f * (dataLineCount content : ℚ)) ∧
        pyRound (f * (dataLineCount content : ℚ)) ≤ (dataLineCount content : ℤ))) ∧
    ((transform fs p f seed).2 = true → (transform fs p f seed).1 = fs) := by
  obtain ⟨cloud, hcloud⟩ := Option.isSome_iff_exists.mp hparse
  have hcl : cleanLines (splitLinesKeep content) = some cloud := hcloud
  have hN : cloud.length = dataLineCount content :=
    cleanLines_length (splitLinesKeep content) cloud hcl
  have hc : cleanedCloudFS fs p = some cloud := by
    simp [cleanedCloudFS, hread, cleaned_cloud, hcl]
  by_cases hcond : 0 ≤ pyRound (f * (dataLineCount content : ℚ)) ∧
      pyRound (f * (dataLineCount content : ℚ)) ≤ (dataLineCount content : ℤ)
  · have hsamp : pandasSample cloud f seed =
        some ((cloud.rotate seed).take
          (pyRound (f * (dataLineCount content : ℚ))).toNat) := by
      unfold pandasSample
      rw [hN, if_pos hcond]
    refine ⟨?_, ?_, ?_⟩
    · simp [preview, hc, point_data, hsamp, hcond]
    · simp [transform, hc, create_xlsx, point_data, hsamp, hcond]
    · intro ht
      exact absurd ht (by simp [transform, hc, create_xlsx, point_data, hsamp])
  · have hsamp : pandasSample cloud f seed = none := by
      unfold pandasSample
      rw [hN, if_neg hcond]
    refine ⟨?_, ?_, ?_⟩
    · simp [preview, hc, point_data, hsamp, hcond]
    · simp [transform, hc, create_xlsx, point_data, hsamp, hcond]
    · intro _
      simp [transform, hc, create_xlsx, point_data, hsamp]

theorem sample_failure_condition_witness :
    (preview [(['a'], FileData.text "1,2,3\n".toList)] ['a'] 2 5 = none ↔
      ¬(0 ≤ pyRound ((2 : ℚ) * (dataLineCount "1,2,3\n".toList : ℚ)) ∧
        pyRound ((2 : ℚ) * (dataLineCount "1,2,3\n".toList : ℚ)) ≤
          (dataLineCount "1,2,3\n".toList : ℤ))) ∧
    ((transform [(['a'], FileData.text "1,2,3\n".toList)] ['a'] 2 5).2 = true ↔
      ¬(0 ≤ pyRound ((2 : ℚ) * (dataLineCount "1,2,3\n".toList : ℚ)) ∧
        pyRound ((2 : ℚ) * (dataLineCount "1,2,3\n".toList : ℚ)) ≤
          (dataLineCount "1,2,3\n".toList : ℤ))) ∧
    ((transform [(['a'], FileData.text "1,2,3\n".toList)] ['a'] 2 5).2 = true →
      (transform [(['a'], FileData.text "1,2,3\n".toList)] ['a'] 2 5).1 =
        [(['a'], FileData.text "1,2,3\n".toList)]) :=
  sample_failure_condition _ ['a'] _ 2 5 (by decide) (by decide)

/-- C5: the validator maps `"1.0"` to `1.0`, `"0.5"` to `0.5`, and `"0"`,
`"1.1"`, `"abc"`, `""` to Invalid (`none`); in general, whenever the
numeric parse yields `v` the result is `v` exactly when `0 < v ≤ 1` and
`none` otherwise, and the result is `none` whenever the parse fails. -/
theorem validate_sub_spec (parse : List Char → Option ℚ) (s : List Char)
    (v : ℚ) :
    validate_sub pyFloat ("1.0".toList) = some 1 ∧
    validate_sub pyFloat ("0.5".toList) = some (1 / 2) ∧
    validate_sub pyFloat ("0".toList) = none ∧
    validate_sub pyFloat ("1.1".toList) = none ∧
    validate_sub pyFloat ("abc".toList) = none ∧
    validate_sub pyFloat ("".toList) = none ∧
    (parse s = some v →
      validate_sub parse s = if 0 < v ∧ v ≤ 1 then some v else none) ∧
    (parse s = none → validate_sub parse s = none) := by
  refine ⟨?_, ?_, ?_, ?_, rfl, rfl, ?_, ?_⟩
  · unfold validate_sub
    rw [show pyFloat ("1.0".toList) =
      some (((1 : ℕ) : ℚ) + ((0 : ℕ) : ℚ) / 10 ^ 1) from rfl]
    norm_num
  · unfold validate_sub
    rw [show pyFloat ("0.5".toList) =
      some (((0 : ℕ) : ℚ) + ((5 : ℕ) : ℚ) / 10 ^ 1) from rfl]
    norm_num
  · unfold validate_sub
    rw [show pyFloat ("0".toList) = some ((0 : ℕ) : ℚ) from rfl]
    norm_num
  · unfold validate_sub
    rw [show pyFloat ("1.1".toList) =
      some (((1 : ℕ) : ℚ) + ((1 : ℕ) : ℚ) / 10 ^ 1) from rfl]
    norm_num
  · intro hp
    simp [validate_sub, hp]
  · intro hp
    simp [validate_sub, hp]

theorem validate_sub_spec_witness :
    validate_sub pyFloat ("0.5".toList) = some (1 / 2) :=
  (validate_sub_spec pyFloat ("0.5".toList) (1 / 2)).2.1

/-- C6: a line whose first character is `#` is discarded entirely and
contributes no row whatever its remaining content; a file of only comment
lines parses to the empty sequence, and `preview` on it returns `0` for
every valid fraction. -/
theorem comment_lines_skipped (fs : FS) (p content : List Char) (f : ℚ)
    (seed : ℕ)
    (hread : fsRead fs p = some (.text content))
    (hcom : ∀ l ∈ splitLinesKeep content, isComment l = true)
    (hf0 : 0 < f) (hf1 : f ≤ 1) :
    (∀ l, isComment l = true → processLine l = .comment) ∧
    (∀ (cs : List Char) (ls : List (List Char)),
      cleanLines (('#' :: cs) :: ls) = cleanLines ls) ∧
    cleaned_cloud content = some [] ∧
    preview fs p f seed = some 0 := by
  have hempty : cleanLines (splitLinesKeep content) = some [] :=
    cleanLines_all_comments _ hcom
  have hc : cleanedCloudFS fs p = some [] := by
    simp [cleanedCloudFS, hread, cleaned_cloud, hempty]
  refine ⟨processLine_comment, ?_, hempty, ?_⟩
  · intro cs ls
    simp [cleanLines, processLine_comment ('#' :: cs) (by simp [isComment])]
  · simp only [preview]
    rw [hc]
    simp [point_data, pandasSample, pyRound_zero]

theorem comment_lines_skipped_witness :
    (∀ l, isComment l = true → processLine l = .comment) ∧
    (∀ (cs : List Char) (ls : List (List Char)),
      cleanLines (('#' :: cs) :: ls) = cleanLines ls) ∧
    cleaned_cloud ("#a\n#b\n".toList) = some [] ∧
    preview [("c.txt".toList, FileData.text "#a\n#b\n".toList)]
      ("c.txt".toList) (1 / 2) 4 = some 0 :=
  comment_lines_skipped _ ("c.txt".toList) _ (1 / 2) 4 (by decide) (by decide)
    (by norm_num) (by norm_num)

/-- C7: on a non-comment line, parse strips the trailing CR LF sequence
from the third field only — the first and second fields (and any extra
fields) pass through unmodified apart from the comma split; in particular
the line `"1.0,2.0,3.0\r\n"` yields the row `["1.0","2.0","3.0"]`.  The
hypothesis that the third field has no interior line feed holds for every
field produced by the line iterator, which cuts after each line feed. -/
theorem z_field_trailing_crlf_stripped (l f0 f1 f2 : List Char)
    (rest : List (List Char))
    (hc : isComment l = false)
    (hs : List.splitOn ',' l = f0 :: f1 :: f2 :: rest)
    (hnl : '\n' ∉ f2.dropLast) :
    processLine l = .row (f0 :: f1 :: stripTrailingCRLF f2 :: rest) ∧
    cleaned_cloud ("1.0,2.0,3.0\r\n".toList) =
      some [["1.0".toList, "2.0".toList, "3.0".toList]] := by
  refine ⟨?_, by decide⟩
  rw [processLine_row l f0 f1 f2 rest hc hs, replaceCRLF_eq_strip f2 hnl]

theorem z_field_trailing_crlf_stripped_witness :
    processLine ("1.0,2.0,3.0\r\n".toList) =
      .row ["1.0".toList, "2.0".toList,
        stripTrailingCRLF ("3.0\r\n".toList)] ∧
    cleaned_cloud ("1.0,2.0,3.0\r\n".toList) =
      some [["1.0".toList, "2.0".toList, "3.0".toList]] :=
  z_field_trailing_crlf_stripped ("1.0,2.0,3.0\r\n".toList)
    ("1.0".toList) ("2.0".toList) ("3.0\r\n".toList) []
    (by decide) (by decide) (by decide)

/-- C8: `transform` on a path with no readable file raises the input-not-
found error before anything is written: the call reports failure and
returns the filesystem unchanged, in particular the state at the would-be
`.xlsx` output path is untouched. -/
theorem transform_missing_input (fs : FS) (p : List Char) (f : ℚ) (seed : ℕ)
    (h : fsRead fs p = none) :
    transform fs p f seed = (fs, true) ∧
    fsRead (transform fs p f seed).1 (xlsx_path p) = fsRead fs (xlsx_path p) := by
  have hc : cleanedCloudFS fs p = none := by
    simp [cleanedCloudFS, h]
  have ht : transform fs p f seed = (fs, true) := by
    simp [transform, hc]
  exact ⟨ht, by rw [ht]⟩

theorem transform_missing_input_witness :
    transform [] ("a.txt".toList) 1 0 = ([], true) ∧
    fsRead (transform [] ("a.txt".toList) 1 0).1 (xlsx_path ("a.txt".toList)) =
      fsRead [] (xlsx_path ("a.txt".toList)) :=
  transform_missing_input [] ("a.txt".toList) 1 0 (by decide)

/-- C9: a non-comment line splitting into fewer than 3 comma-separated
fields makes the `row[2]` access out of bounds, so parsing raises an index
error (the embedded error branch) instead of returning a result; e.g. a
file whose only line is `1.0,2.0` fails to parse. -/
theorem short_row_index_error (l : List Char)
    (hc : isComment l = false)
    (hlen : (List.splitOn ',' l).length < 3) :
    processLine l = .err ∧ cleaned_cloud ("1.0,2.0\n".toList) = none :=
  ⟨processLine_err l hc hlen, by decide⟩

theorem short_row_index_error_witness :
    processLine ("1.0,2.0\n".toList) = .err ∧
    cleaned_cloud ("1.0,2.0\n".toList) = none :=
  short_row_index_error ("1.0,2.0\n".toList) (by decide) (by decide)

/-- C10: parse applies to the third field the removal of every
non-overlapping occurrence of the CR LF pair anywhere in the field (not
only a trailing one), and it does not touch a bare line feed that is not
preceded by a carriage return — a field without any CR is returned
unchanged, and the line `"1.0,2.0,3.0\n"` keeps its terminator in the Z
field. -/
theorem crlf_removed_everywhere_bare_lf_kept (f2 : List Char)
    (hcr : '\r' ∉ f2) :
    (∀ (l g0 g1 g2 : List Char) (rest : List (List Char)),
      isComment l = false → List.splitOn ',' l = g0 :: g1 :: g2 :: rest →
      processLine l = .row (g0 :: g1 :: replaceCRLF g2 :: rest)) ∧
    replaceCRLF ("3.0\r\nx\r\ny".toList) = "3.0xy".toList ∧
    replaceCRLF f2 = f2 ∧
    cleaned_cloud ("1.0,2.0,3.0\n".toList) =
      some [["1.0".toList, "2.0".toList, "3.0\n".toList]] :=
  ⟨fun l g0 g1 g2 rest hc hs => processLine_row l g0 g1 g2 rest hc hs,
    by decide, replaceCRLF_no_cr f2 hcr, by decide⟩

theorem crlf_removed_everywhere_bare_lf_kept_witness :
    (∀ (l g0 g1 g2 : List Char) (rest : List (List Char)),
      isComment l = false → List.splitOn ',' l = g0 :: g1 :: g2 :: rest →
      processLine l = .row (g0 :: g1 :: replaceCRLF g2 :: rest)) ∧
    replaceCRLF ("3.0\r\nx\r\ny".toList) = "3.0xy".toList ∧
    replaceCRLF ("3.0\n".toList) = "3.0\n".toList ∧
    cleaned_cloud ("1.0,2.0,3.0\n".toList) =
      some [["1.0".toList, "2.0".toList, "3.0\n".toList]] :=
  crlf_removed_everywhere_bare_lf_kept ("3.0\n".toList) (by decide)

end PointCloudConverter
